import Mathlib

/-
Verification of the concurrent TCP port scanner (src/port_scanner.c) against
its natural-language specification.  The C program is shallowly embedded:

* `JobQueue` / `get_next_port` mirror the thread-safe job queue
  (port_scanner.c lines 47-52 and 312-323); since every access to the cursor
  happens under `q->lock`, concurrent calls serialize and are modelled as a
  sequential step function on the queue state.
* `initQueue` mirrors the queue construction in `main` (lines 127-142).
* `NetBehavior` fixes one deterministic environment: whether `socket()`
  succeeds, whether `connect()` returns 0, and what bytes `recv` can deliver
  for each port.
* `probeOutcome`, `workerIter`, `workerRun` mirror the body of `worker`
  (lines 230-309) including banner handling, output lines and socket events.
* A small-step pool semantics (`PoolStep`) interleaves several workers, and a
  small-step sink semantics (`SinkStep`) models the `print_lock`-guarded
  output section (lines 264-302).
-/

namespace PortScanner

/-- Thread-safe job queue of ports to scan (struct JobQueue, lines 47-52).
The pthread mutex serializes access, so the lock field itself is not
modelled; `get_next_port` is the whole critical section. -/
structure JobQueue where
  ports : List Int
  size : Nat
  index : Nat
deriving DecidableEq

/-- Well-formedness tying the stored `size` to the length of the allocated
port array, as established by `main` (line 129-130). -/
def JobQueue.wf (q : JobQueue) : Prop := q.size = q.ports.length

/-- `get_next_port` (lines 312-323): under the queue lock, return -1 if the
cursor has reached `size`, otherwise hand out `ports[index]` and advance the
cursor.  The out-of-bounds read is modelled by `List.getD` with default 0;
`getD_in_bounds` below shows the default is never used on well-formed
queues. -/
def get_next_port (q : JobQueue) : Int × JobQueue :=
  if q.size ≤ q.index then (-1, q)
  else (q.ports.getD q.index 0, JobQueue.mk q.ports q.size (q.index + 1))

/-- Queue construction in `main` (lines 127-142): `size = end - start + 1`,
`ports[i] = start + i`, cursor at 0. -/
def initQueue (s e : Int) : JobQueue :=
  JobQueue.mk ((List.range (e - s + 1).toNat).map (fun i : Nat => s + (i : Int)))
    (e - s + 1).toNat 0

/-- The state part of one `get_next_port` call. -/
def stepQ (q : JobQueue) : JobQueue := (get_next_port q).2

/-- Result of the k-th `get_next_port` call (0-based) on a queue whose calls
have been serialized by the mutex. -/
def callResult (q0 : JobQueue) (k : Nat) : Int := (get_next_port (stepQ^[k] q0)).1

theorem initQueue_wf (s e : Int) : (initQueue s e).wf := by
  unfold JobQueue.wf initQueue
  rw [List.length_map, List.length_range]

theorem initQueue_ports_getD (s e : Int) (k : Nat) (hk : k < (e - s + 1).toNat) :
    (initQueue s e).ports.getD k 0 = s + (k : Int) := by
  simp only [initQueue, List.getD_eq_getElem?_getD, List.getElem?_map,
    List.getElem?_range hk, Option.map_some', Option.getD_some]

theorem stepQ_iterate (s e : Int) (k : Nat) :
    stepQ^[k] (initQueue s e) =
      JobQueue.mk (initQueue s e).ports (initQueue s e).size (min k (initQueue s e).size) := by
  induction k with
  | zero => simp [initQueue]
  | succ k ih =>
      rw [Function.iterate_succ_apply', ih]
      by_cases h : (initQueue s e).size ≤ k
      · have h1 : min k (initQueue s e).size = (initQueue s e).size := by omega
        have h2 : min (k + 1) (initQueue s e).size = (initQueue s e).size := by omega
        simp [stepQ, get_next_port, h1, h2]
      · have h1 : min k (initQueue s e).size = k := by omega
        have h2 : min (k + 1) (initQueue s e).size = k + 1 := by omega
        simp only [stepQ, get_next_port, h1, h2]
        rw [if_neg (by omega)]

theorem callResult_lt (s e : Int) (k : Nat) (hk : k < (initQueue s e).size) :
    callResult (initQueue s e) k = s + (k : Int) := by
  rw [callResult, stepQ_iterate]
  have hmin : min k (initQueue s e).size = k := by omega
  simp only [get_next_port, hmin]
  rw [if_neg (by omega)]
  exact initQueue_ports_getD s e k hk

theorem callResult_ge (s e : Int) (k : Nat) (hk : (initQueue s e).size ≤ k) :
    callResult (initQueue s e) k = -1 := by
  rw [callResult, stepQ_iterate]
  have hmin : min k (initQueue s e).size = (initQueue s e).size := by omega
  simp [get_next_port, hmin]

/-- Probe outcome of one port, following the spec's discriminated result. -/
inductive Outcome
  | Closed
  | OpenNoData
  | OpenWithBanner (banner : List Nat)

/-- An outcome counts as open when the `connect` call returned 0
(worker, line 256). -/
def Outcome.isOpen : Outcome → Bool
  | Outcome.Closed => false
  | _ => true

def bannerOf (o : Outcome) : Option (List Nat) :=
  match o with
  | Outcome.OpenWithBanner bs => some bs
  | _ => none

/-- One fixed, deterministic environment for a scan: per port, whether
`socket()` succeeds, whether `connect()` returns 0, and what `recv` yields
(`none` = negative return, i.e. timeout or error; `some bs` = the byte
stream the service offers, of which `recv` returns at most the requested
count). -/
structure NetBehavior where
  sockOk : Int → Bool
  connectOk : Int → Bool
  recvData : Int → Option (List Nat)

/-- Size of the fixed banner buffer `char banner[512]` (worker, line 257). -/
def bufSize : Nat := 512

/-- Outcome of the connect/recv part of the worker body (lines 254-260):
`n` starts at 0 and `recv` is called only in full mode with requested count
`sizeof(banner) - 1 = 511`; the branch on `n > 0` decides between a banner
and no data. -/
def probeOutcome (net : NetBehavior) (full : Bool) (p : Int) : Outcome :=
  if net.connectOk p = false then Outcome.Closed
  else if full then
    match net.recvData p with
    | none => Outcome.OpenNoData
    | some bs =>
        if bs.isEmpty then Outcome.OpenNoData
        else Outcome.OpenWithBanner (bs.take (bufSize - 1))
  else Outcome.OpenNoData

/-- `service_name` (lines 208-227): static lookup from port to label,
empty string by default. -/
def service_name (port : Int) : String :=
  if port = 20 ∨ port = 21 then "FTP"
  else if port = 22 then "SSH"
  else if port = 23 then "Telnet"
  else if port = 25 then "SMTP"
  else if port = 53 then "DNS"
  else if port = 80 then "HTTP"
  else if port = 110 then "POP3"
  else if port = 139 then "NetBIOS"
  else if port = 143 then "IMAP"
  else if port = 389 then "LDAP"
  else if port = 443 then "HTTPS"
  else if port = 445 then "SMB"
  else if port = 3306 then "MySQL"
  else if port = 3389 then "RDP"
  else ""

def COLOR_GREEN : String := "\x1b[32m"
def COLOR_RESET : String := "\x1b[0m"

/-- Rendering of the captured banner by `printf`/`fprintf` `%s` after
`banner[n] = 0` (line 267): the bytes up to the first NUL byte. -/
def bannerStr (bs : List Nat) : String :=
  String.mk ((bs.takeWhile (fun b => b != 0)).map (fun b => Char.ofNat b))

/-- The line appended to `scan_results.txt` for an open port: the four
`fprintf` branches of the worker (lines 276-297), selected by `n > 0`
(banner captured) and `svc[0] != 0` (non-empty service label). -/
def logLine (tid : Nat) (port : Int) (o : Outcome) (svc : String) : String :=
  match o with
  | Outcome.OpenWithBanner bs =>
      if svc ≠ "" then
        "[Thread " ++ toString tid ++ "] Port " ++ toString port ++ " OPEN - banner: "
          ++ bannerStr bs ++ " (" ++ svc ++ ")\n"
      else
        "[Thread " ++ toString tid ++ "] Port " ++ toString port ++ " OPEN - banner: "
          ++ bannerStr bs ++ "\n"
  | _ =>
      if svc ≠ "" then
        "[Thread " ++ toString tid ++ "] Port " ++ toString port ++ " OPEN (" ++ svc ++ ")\n"
      else
        "[Thread " ++ toString tid ++ "] Port " ++ toString port ++ " OPEN\n"

/-- The line printed to the console for an open port: the four `printf`
branches of the worker (lines 266-298), with ANSI color codes. -/
def conLine (tid : Nat) (port : Int) (o : Outcome) (svc : String) : String :=
  match o with
  | Outcome.OpenWithBanner bs =>
      if svc ≠ "" then
        COLOR_GREEN ++ "[Thread " ++ toString tid ++ "] Port " ++ toString port ++ " OPEN"
          ++ COLOR_RESET ++ " - banner: " ++ bannerStr bs ++ " (" ++ svc ++ ")\n"
      else
        COLOR_GREEN ++ "[Thread " ++ toString tid ++ "] Port " ++ toString port ++ " OPEN"
          ++ COLOR_RESET ++ " - banner: " ++ bannerStr bs ++ "\n"
  | _ =>
      if svc ≠ "" then
        COLOR_GREEN ++ "[Thread " ++ toString tid ++ "] Port " ++ toString port ++ " OPEN ("
          ++ svc ++ ")" ++ COLOR_RESET ++ "\n"
      else
        COLOR_GREEN ++ "[Thread " ++ toString tid ++ "] Port " ++ toString port ++ " OPEN"
          ++ COLOR_RESET ++ "\n"

/-- Compositional form of the durable-log line: mandatory head, optional
banner segment, optional service suffix, newline. -/
def mkLine (tid : Nat) (port : Int) (bn : Option (List Nat)) (svc : String) : String :=
  "[Thread " ++ toString tid ++ "] Port " ++ toString port ++ " OPEN"
    ++ (match bn with
        | some bs => " - banner: " ++ bannerStr bs
        | none => "")
    ++ (if svc = "" then "" else " (" ++ svc ++ ")") ++ "\n"

/-- The durable-log line format asserted by the spec (section 6), written
from the spec's words for comparison with `logLine`:
"[Worker <id>] Port <port> OPEN [- banner: <escaped-bytes>] [(<service-name>)]". -/
def specWorkerLine (tid : Nat) (port : Int) (bn : Option (List Nat)) (svc : String) : String :=
  "[Worker " ++ toString tid ++ "] Port " ++ toString port ++ " OPEN"
    ++ (match bn with
        | some bs => " - banner: " ++ bannerStr bs
        | none => "")
    ++ (if svc = "" then "" else " (" ++ svc ++ ")") ++ "\n"

/-- Socket-resource and read events of one worker loop iteration. -/
inductive SockEvent
  | sockCreate
  | sockClose
  | recvCall
deriving DecidableEq

/-- One iteration of the worker loop body after a successful claim of port
`p` (lines 241-305).  `outcome = none` models `socket()` returning
INVALID_SOCKET, upon which the worker executes `return NULL` (line 248):
nothing is created, written or closed.  Otherwise the socket is created,
the connection attempted, output produced only in the open case, and
`closesocket` runs on every path (line 305). -/
structure IterResult where
  outcome : Option Outcome
  conl : List String
  logl : List String
  evs : List SockEvent

def workerIter (net : NetBehavior) (full : Bool) (tid : Nat) (p : Int) : IterResult :=
  if net.sockOk p = false then IterResult.mk none [] [] []
  else if net.connectOk p = false then
    IterResult.mk (some Outcome.Closed) [] [] [SockEvent.sockCreate, SockEvent.sockClose]
  else
    let o := probeOutcome net full p
    let svc := service_name p
    IterResult.mk (some o) [conLine tid p o svc] [logLine tid p o svc]
      ([SockEvent.sockCreate] ++ (if full then [SockEvent.recvCall] else [])
        ++ [SockEvent.sockClose])

/-- Accumulated effect of one worker thread running alone: the ports it
completed an iteration for, the durable-log lines it appended, its socket
events, and the final queue state. -/
structure RunResult where
  probed : List Int
  logl : List String
  evs : List SockEvent
  queue : JobQueue

/-- The worker loop (lines 236-306), fuel-indexed: claim a port, stop on
exhaustion (-1), stop by `return NULL` when socket creation fails, else
complete the iteration and loop. -/
def workerRun (net : NetBehavior) (full : Bool) (tid : Nat) : Nat → JobQueue → RunResult
  | 0, q => RunResult.mk [] [] [] q
  | fuel + 1, q =>
      let r := get_next_port q
      if r.1 = -1 then RunResult.mk [] [] [] r.2
      else
        let it := workerIter net full tid r.1
        match it.outcome with
        | none => RunResult.mk [] it.logl it.evs r.2
        | some _ =>
            let rest := workerRun net full tid fuel r.2
            RunResult.mk (r.1 :: rest.probed) (it.logl ++ rest.logl)
              (it.evs ++ rest.evs) rest.queue

/-- Status of one worker thread with respect to the shared queue: about to
call `get_next_port`, holding a claimed port it has not finished probing, or
terminated (either by observing exhaustion, line 238-239, or by the
`return NULL` on socket-creation failure, line 248). -/
inductive WStatus
  | idle
  | hasPort (p : Int)
  | done
deriving DecidableEq

/-- Interleaved state of the whole pool: the shared queue, each worker's
status, and the ports recorded open so far (in record order). -/
structure PoolState where
  queue : JobQueue
  workers : List WStatus
  recorded : List Int

/-- Pool right after `main` spawned `n` workers over the queue for
`[s, e]` (lines 127-183). -/
def initPool (s e : Int) (n : Nat) : PoolState :=
  PoolState.mk (initQueue s e) (List.replicate n WStatus.idle) []

/-- What one completed probe contributes to the record: the port if open
(the worker enters the `result == 0` block, lines 256-303), else nothing. -/
def openRecord (net : NetBehavior) (full : Bool) (p : Int) : List Int :=
  if (probeOutcome net full p).isOpen then [p] else []

/-- Small-step interleaving semantics of the worker pool.  A claim is one
atomic `get_next_port` call (the C code holds `q->lock` for the whole call);
a probe step is one worker finishing its current port (its socket is private,
and the record happens under `print_lock`, so its effect on the shared state
is one atomic append). -/
inductive PoolStep (net : NetBehavior) (full : Bool) : PoolState → PoolState → Prop
  | claimPort (s : PoolState) (i : Nat) (p : Int) (q' : JobQueue)
      (hi : s.workers[i]? = some WStatus.idle)
      (hp : get_next_port s.queue = (p, q'))
      (hne : p ≠ -1) :
      PoolStep net full s (PoolState.mk q' (s.workers.set i (WStatus.hasPort p)) s.recorded)
  | claimDone (s : PoolState) (i : Nat) (q' : JobQueue)
      (hi : s.workers[i]? = some WStatus.idle)
      (hp : get_next_port s.queue = (-1, q')) :
      PoolStep net full s (PoolState.mk q' (s.workers.set i WStatus.done) s.recorded)
  | probeFail (s : PoolState) (i : Nat) (p : Int)
      (hi : s.workers[i]? = some (WStatus.hasPort p))
      (hs : net.sockOk p = false) :
      PoolStep net full s (PoolState.mk s.queue (s.workers.set i WStatus.done) s.recorded)
  | probeDone (s : PoolState) (i : Nat) (p : Int)
      (hi : s.workers[i]? = some (WStatus.hasPort p))
      (hs : net.sockOk p = true) :
      PoolStep net full s
        (PoolState.mk s.queue (s.workers.set i WStatus.idle)
          (s.recorded ++ openRecord net full p))

/-- Reflexive-transitive closure of `PoolStep` from a fixed initial state. -/
inductive PoolReach (net : NetBehavior) (full : Bool) (s : PoolState) : PoolState → Prop
  | refl : PoolReach net full s s
  | tail (t u : PoolState) :
      PoolReach net full s t → PoolStep net full t u → PoolReach net full s u

/-- A complete run: every worker has terminated (this is the state `main`
observes after joining all threads, lines 186-187). -/
def Terminal (s : PoolState) : Prop := ∀ w ∈ s.workers, w = WStatus.done

def portsOf : WStatus → List Int
  | WStatus.hasPort p => [p]
  | _ => []

/-- Ports currently claimed but not yet finished by some worker. -/
def heldPorts : List WStatus → List Int
  | [] => []
  | w :: ws => portsOf w ++ heldPorts ws

/-- The ports of `ps` whose probe comes out open, in `ps` order. -/
def openFilter (net : NetBehavior) (full : Bool) (ps : List Int) : List Int :=
  ps.filter (fun p => (probeOutcome net full p).isOpen)

/-- Case analysis of `get_next_port`. -/
theorem get_next_port_cases (q : JobQueue) :
    (q.size ≤ q.index ∧ get_next_port q = (-1, q)) ∨
    (q.index < q.size ∧
      get_next_port q = (q.ports.getD q.index 0, JobQueue.mk q.ports q.size (q.index + 1))) := by
  by_cases h : q.size ≤ q.index
  · exact Or.inl ⟨h, by simp [get_next_port, h]⟩
  · exact Or.inr ⟨by omega, by simp [get_next_port, h]⟩

theorem heldPorts_set (ws : List WStatus) (i : Nat) (a b : WStatus)
    (h : ws[i]? = some a) (x : Int) :
    (heldPorts (ws.set i b)).count x + (portsOf a).count x =
      (heldPorts ws).count x + (portsOf b).count x := by
  induction ws generalizing i with
  | nil => simp at h
  | cons w t ih =>
      cases i with
      | zero =>
          simp only [List.getElem?_cons_zero, Option.some.injEq] at h
          subst h
          simp [heldPorts, List.count_append]
          omega
      | succ j =>
          simp only [List.getElem?_cons_succ] at h
          simp only [List.set_cons_succ, heldPorts, List.count_append]
          have := ih j h
          omega

theorem heldPorts_terminal (ws : List WStatus) (h : ∀ w ∈ ws, w = WStatus.done) :
    heldPorts ws = [] := by
  induction ws with
  | nil => rfl
  | cons w t ih =>
      have hw := h w (List.mem_cons_self w t)
      subst hw
      simp [heldPorts, portsOf, ih fun w hw => h w (List.mem_cons_of_mem _ hw)]

theorem heldPorts_replicate_idle (n : Nat) :
    heldPorts (List.replicate n WStatus.idle) = [] := by
  induction n with
  | zero => rfl
  | succ n ih => simp [List.replicate_succ, heldPorts, portsOf, ih]

/-- Inductive invariant of the pool, for a fixed underlying port list `P`
not containing the sentinel -1 and a fixed worker count `n`. -/
def PoolInv (net : NetBehavior) (full : Bool) (P : List Int) (n : Nat) (s : PoolState) : Prop :=
  s.queue.ports = P ∧
  s.queue.size = P.length ∧
  s.queue.index ≤ P.length ∧
  s.workers.length = n ∧
  (∀ x : Int, (s.recorded ++ openFilter net full (heldPorts s.workers)).count x =
    (openFilter net full (P.take s.queue.index)).count x) ∧
  (WStatus.done ∈ s.workers → P.length ≤ s.queue.index)

theorem openFilter_count (net : NetBehavior) (full : Bool) (ps : List Int) (x : Int) :
    (openFilter net full ps).count x =
      if (probeOutcome net full x).isOpen then ps.count x else 0 := by
  induction ps with
  | nil => simp [openFilter]
  | cons p t ih =>
      simp only [openFilter, List.filter_cons] at ih ⊢
      by_cases hpx : p = x
      · subst hpx
        by_cases hf : (probeOutcome net full p).isOpen
        · simp [hf, List.count_cons, ih]
        · simp [hf, ih]
      · by_cases hf : (probeOutcome net full p).isOpen
        · simp only [hf, if_true, List.count_cons, ih]
          by_cases hg : (probeOutcome net full x).isOpen <;> simp [hg, hpx]
        · simp only [hf]
          rw [if_neg (by simp [hf])]
          rw [ih, List.count_cons]
          by_cases hg : (probeOutcome net full x).isOpen <;> simp [hg, hpx]

theorem openRecord_eq (net : NetBehavior) (full : Bool) (p : Int) :
    openRecord net full p = openFilter net full [p] := by
  unfold openRecord openFilter
  cases h : (probeOutcome net full p).isOpen <;>
    simp [List.filter_cons, List.filter_nil, h]

theorem take_succ_getD (l : List Int) (k : Nat) (hk : k < l.length) :
    l.take (k + 1) = l.take k ++ [l.getD k 0] := by
  rw [List.take_succ]
  congr 1
  rw [List.getD_eq_getElem?_getD, List.getElem?_eq_getElem hk]
  rfl

theorem getD_mem (l : List Int) (k : Nat) (hk : k < l.length) : l.getD k 0 ∈ l := by
  rw [List.getD_eq_getElem?_getD, List.getElem?_eq_getElem hk]
  exact List.getElem_mem hk

/-- One pool step preserves the invariant, provided -1 is not a real port
and socket creation never fails. -/
theorem poolInv_step (net : NetBehavior) (full : Bool) (P : List Int) (n : Nat)
    (hP : (-1 : Int) ∉ P) (hsock : ∀ p, net.sockOk p = true)
    (s t : PoolState) (hst : PoolStep net full s t) (hinv : PoolInv net full P n s) :
    PoolInv net full P n t := by
  obtain ⟨h1, h2, h3, h4, h5, h6⟩ := hinv
  cases hst with
  | claimPort i p q' hi hp hne =>
      rcases get_next_port_cases s.queue with ⟨hge, heq⟩ | ⟨hlt, heq⟩
      · exfalso
        rw [hp] at heq
        exact hne (congrArg Prod.fst heq)
      · rw [hp] at heq
        have hpv : p = s.queue.ports.getD s.queue.index 0 := congrArg Prod.fst heq
        have hqv : q' = JobQueue.mk s.queue.ports s.queue.size (s.queue.index + 1) :=
          congrArg Prod.snd heq
        subst hpv hqv
        have hidx : s.queue.index < P.length := by rw [← h2]; exact hlt
        refine ⟨h1, h2, by simp; omega, by simp [h4], ?_, ?_⟩
        · intro x
          have hh := heldPorts_set s.workers i WStatus.idle
            (WStatus.hasPort (s.queue.ports.getD s.queue.index 0)) hi x
          simp only [portsOf, List.count_nil] at hh
          have h5x := h5 x
          rw [List.count_append, openFilter_count] at h5x ⊢
          simp only []
          have htake : P.take (s.queue.index + 1) = P.take s.queue.index ++ [P.getD s.queue.index 0] :=
            take_succ_getD P s.queue.index hidx
          rw [htake]
          rw [openFilter_count] at h5x
          rw [openFilter_count]
          rw [h1] at hh ⊢
          by_cases hf : (probeOutcome net full x).isOpen
          · simp only [hf, if_true] at h5x ⊢
            rw [List.count_append]
            omega
          · simp only [hf, if_false, Bool.false_eq_true] at h5x ⊢
            omega
        · intro hd
          have hd2 := List.mem_or_eq_of_mem_set hd
          rcases hd2 with hd2 | hd2
          · have := h6 hd2; simp; omega
          · cases hd2
  | claimDone i q' hi hp =>
      rcases get_next_port_cases s.queue with ⟨hge, heq⟩ | ⟨hlt, heq⟩
      · rw [hp] at heq
        have hqv : q' = s.queue := congrArg Prod.snd heq
        subst hqv
        refine ⟨h1, h2, h3, by simp [h4], ?_, ?_⟩
        · intro x
          have hh := heldPorts_set s.workers i WStatus.idle WStatus.done hi x
          simp only [portsOf, List.count_nil] at hh
          have h5x := h5 x
          rw [List.count_append, openFilter_count] at h5x ⊢
          by_cases hf : (probeOutcome net full x).isOpen
          · simp only [hf, if_true] at h5x ⊢; omega
          · simp only [hf, if_false, Bool.false_eq_true] at h5x ⊢; omega
        · intro _
          rw [← h2]; exact hge
      · exfalso
        rw [hp] at heq
        have hpv : (-1 : Int) = s.queue.ports.getD s.queue.index 0 := congrArg Prod.fst heq
        apply hP
        rw [← h1]
        rw [hpv]
        exact getD_mem _ _ (by rw [h1]; omega)
  | probeFail i p hi hs =>
      exact absurd (hsock p) (by simp [hs])
  | probeDone i p hi hs =>
      refine ⟨h1, h2, h3, by simp [h4], ?_, ?_⟩
      · intro x
        have hh := heldPorts_set s.workers i (WStatus.hasPort p) WStatus.idle hi x
        simp only [portsOf, List.count_nil] at hh
        have h5x := h5 x
        rw [List.count_append, openFilter_count] at h5x
        rw [List.count_append, List.count_append, openFilter_count, openRecord_eq,
          openFilter_count]
        by_cases hf : (probeOutcome net full x).isOpen
        · simp only [hf, if_true] at h5x ⊢; omega
        · simp only [hf, if_false, Bool.false_eq_true] at h5x ⊢; omega
      · intro hd
        have hd2 := List.mem_or_eq_of_mem_set hd
        rcases hd2 with hd2 | hd2
        · exact h6 hd2
        · cases hd2

theorem poolInv_reach (net : NetBehavior) (full : Bool) (P : List Int) (n : Nat)
    (hP : (-1 : Int) ∉ P) (hsock : ∀ p, net.sockOk p = true)
    (s t : PoolState) (hr : PoolReach net full s t) (h0 : PoolInv net full P n s) :
    PoolInv net full P n t := by
  induction hr with
  | refl => exact h0
  | tail t u hprev hstep ih => exact poolInv_step net full P n hP hsock _ _ hstep ih

theorem initPool_inv (net : NetBehavior) (full : Bool) (s e : Int) (n : Nat) :
    PoolInv net full (initQueue s e).ports n (initPool s e n) := by
  refine ⟨rfl, initQueue_wf s e, by simp [initPool, initQueue], ?_, ?_, ?_⟩
  · simp [initPool]
  · intro x
    simp [initPool, initQueue, heldPorts_replicate_idle, openFilter]
  · intro hd
    exfalso
    rw [initPool] at hd
    simp only [List.mem_replicate] at hd
    exact WStatus.noConfusion hd.2

theorem initQueue_no_neg_one (s e : Int) (hs : 1 ≤ s) :
    (-1 : Int) ∉ (initQueue s e).ports := by
  intro hmem
  simp only [initQueue, List.mem_map, List.mem_range] at hmem
  obtain ⟨i, _, hi⟩ := hmem
  omega

/-- A complete scan with any worker count records, up to permutation, exactly
the open ports of the range — socket creation permitting. -/
theorem pool_complete_run (net : NetBehavior) (full : Bool) (s e : Int) (n : Nat)
    (hs : 1 ≤ s) (hsock : ∀ p, net.sockOk p = true) (hn : 1 ≤ n) (t : PoolState)
    (hr : PoolReach net full (initPool s e n) t) (ht : Terminal t) :
    ∀ x : Int, t.recorded.count x = (openFilter net full (initQueue s e).ports).count x := by
  have hinv := poolInv_reach net full (initQueue s e).ports n
    (initQueue_no_neg_one s e hs) hsock _ t hr (initPool_inv net full s e n)
  obtain ⟨h1, h2, h3, h4, h5, h6⟩ := hinv
  have hheld : heldPorts t.workers = [] := heldPorts_terminal t.workers ht
  have hne : t.workers ≠ [] := by
    intro hnil
    rw [hnil] at h4
    simp at h4
    omega
  obtain ⟨w, hw⟩ := List.exists_mem_of_ne_nil t.workers hne
  have hdone : WStatus.done ∈ t.workers := by
    have := ht w hw; subst this; exact hw
  have hidx : t.queue.index = (initQueue s e).ports.length := by
    have := h6 hdone; omega
  intro x
  have h5x := h5 x
  rw [hheld] at h5x
  simp only [openFilter, List.filter_nil, List.append_nil] at h5x
  rw [h5x, hidx, List.take_length]
  rfl

/-- Fields of one `record` call: the open port, its outcome and the service
label the worker looked up before taking the lock (line 262). -/
structure OutRec where
  port : Int
  outcome : Outcome
  svc : String

/-- One durable-log line for a record call. -/
def renderRec (w : Nat) (r : OutRec) : String := logLine w r.port r.outcome r.svc

/-- Observable events of the output section: a console write, a durable-log
write, a flush of the durable channel. -/
inductive SinkEv
  | con (w : Nat) (r : OutRec)
  | logw (w : Nat) (r : OutRec)
  | flush (w : Nat)

/-- Where a worker stands inside the `print_lock` critical section
(lines 264-302): outside, just acquired, after the console `printf`, after
the `fprintf` to the log, after `fflush`. -/
inductive SinkPhase
  | outside
  | locked (r : OutRec)
  | wroteCon (r : OutRec)
  | wroteLog (r : OutRec)
  | flushed (r : OutRec)

/-- Shared state of the Result Sink: the lock owner, each worker's phase,
the event trace, and the contents of the durable log as a list of appended
lines. -/
structure SinkState where
  owner : Option Nat
  ph : Nat → SinkPhase
  evs : List SinkEv
  lines : List String

/-- Fine-grained interleaving semantics of the output section: each
`printf` / `fprintf` / `fflush` is a separate step, and the pthread mutex
is modelled exactly — acquisition requires the lock to be free, every write
step requires ownership. -/
inductive SinkStep : SinkState → SinkState → Prop
  | acquire (s : SinkState) (w : Nat) (r : OutRec)
      (ho : s.owner = none) (hp : s.ph w = SinkPhase.outside) :
      SinkStep s (SinkState.mk (some w) (Function.update s.ph w (SinkPhase.locked r))
        s.evs s.lines)
  | writeCon (s : SinkState) (w : Nat) (r : OutRec)
      (ho : s.owner = some w) (hp : s.ph w = SinkPhase.locked r) :
      SinkStep s (SinkState.mk s.owner (Function.update s.ph w (SinkPhase.wroteCon r))
        (s.evs ++ [SinkEv.con w r]) s.lines)
  | writeLog (s : SinkState) (w : Nat) (r : OutRec)
      (ho : s.owner = some w) (hp : s.ph w = SinkPhase.wroteCon r) :
      SinkStep s (SinkState.mk s.owner (Function.update s.ph w (SinkPhase.wroteLog r))
        (s.evs ++ [SinkEv.logw w r]) (s.lines ++ [renderRec w r]))
  | doFlush (s : SinkState) (w : Nat) (r : OutRec)
      (ho : s.owner = some w) (hp : s.ph w = SinkPhase.wroteLog r) :
      SinkStep s (SinkState.mk s.owner (Function.update s.ph w (SinkPhase.flushed r))
        (s.evs ++ [SinkEv.flush w]) s.lines)
  | release (s : SinkState) (w : Nat) (r : OutRec)
      (ho : s.owner = some w) (hp : s.ph w = SinkPhase.flushed r) :
      SinkStep s (SinkState.mk none (Function.update s.ph w SinkPhase.outside)
        s.evs s.lines)

def initSink : SinkState := SinkState.mk none (fun _ => SinkPhase.outside) [] []

/-- Reflexive-transitive closure of `SinkStep` from a fixed initial state. -/
inductive SinkReach (s : SinkState) : SinkState → Prop
  | refl : SinkReach s s
  | tail (t u : SinkState) : SinkReach s t → SinkStep t u → SinkReach s u

/-- The three events of one complete record call. -/
def blockOf (w : Nat) (r : OutRec) : List SinkEv :=
  [SinkEv.con w r, SinkEv.logw w r, SinkEv.flush w]

/-- Event trace of a list of completed record calls, one block per call. -/
def blocksJoin : List (Nat × OutRec) → List SinkEv
  | [] => []
  | c :: cs => blockOf c.1 c.2 ++ blocksJoin cs

theorem blocksJoin_append (a b : List (Nat × OutRec)) :
    blocksJoin (a ++ b) = blocksJoin a ++ blocksJoin b := by
  induction a with
  | nil => rfl
  | cons c cs ih => simp [blocksJoin, ih, List.append_assoc]

/-- Events already performed by the in-progress call, per phase. -/
def phasePartial (w : Nat) : SinkPhase → List SinkEv
  | SinkPhase.wroteCon r => [SinkEv.con w r]
  | SinkPhase.wroteLog r => [SinkEv.con w r, SinkEv.logw w r]
  | SinkPhase.flushed r => blockOf w r
  | _ => []

/-- Log lines already appended by the in-progress call, per phase. -/
def phaseLines (w : Nat) : SinkPhase → List String
  | SinkPhase.wroteLog r => [renderRec w r]
  | SinkPhase.flushed r => [renderRec w r]
  | _ => []

def partialEvsAux (o : Option Nat) (f : Nat → SinkPhase) : List SinkEv :=
  match o with
  | none => []
  | some w => phasePartial w (f w)

def partialLinesAux (o : Option Nat) (f : Nat → SinkPhase) : List String :=
  match o with
  | none => []
  | some w => phaseLines w (f w)

def partialEvs (s : SinkState) : List SinkEv := partialEvsAux s.owner s.ph

def partialLines (s : SinkState) : List String := partialLinesAux s.owner s.ph

theorem partialEvsAux_none (f : Nat → SinkPhase) : partialEvsAux none f = [] := rfl

theorem partialEvsAux_some (w : Nat) (f : Nat → SinkPhase) :
    partialEvsAux (some w) f = phasePartial w (f w) := rfl

theorem partialLinesAux_none (f : Nat → SinkPhase) : partialLinesAux none f = [] := rfl

theorem partialLinesAux_some (w : Nat) (f : Nat → SinkPhase) :
    partialLinesAux (some w) f = phaseLines w (f w) := rfl

/-- Inductive invariant of the sink: only the lock owner is inside the
critical section, and the trace so far is a sequence of complete per-call
blocks followed by the owner's partial block; the log lines correspond
one-to-one to the calls that have reached their `fprintf`. -/
def SinkInv (s : SinkState) : Prop :=
  (∀ w, s.owner ≠ some w → s.ph w = SinkPhase.outside) ∧
  ∃ cs : List (Nat × OutRec),
    s.evs = blocksJoin cs ++ partialEvs s ∧
    s.lines = cs.map (fun c => renderRec c.1 c.2) ++ partialLines s

theorem sinkInv_step (s t : SinkState) (hst : SinkStep s t) (hinv : SinkInv s) :
    SinkInv t := by
  obtain ⟨hmx, cs, hevs, hlines⟩ := hinv
  cases hst with
  | acquire w r ho hp =>
      have hpe : partialEvs s = [] := by
        unfold partialEvs
        rw [ho, partialEvsAux_none]
      have hpl : partialLines s = [] := by
        unfold partialLines
        rw [ho, partialLinesAux_none]
      refine ⟨?_, cs, ?_, ?_⟩
      · intro w' hw'
        simp only [ne_eq, Option.some.injEq] at hw'
        by_cases hww : w' = w
        · exact absurd hww.symm hw'
        · show Function.update s.ph w (SinkPhase.locked r) w' = SinkPhase.outside
          rw [Function.update_noteq hww]
          exact hmx w' (by rw [ho]; exact fun hc => Option.noConfusion hc)
      · show s.evs = blocksJoin cs ++
          partialEvsAux (some w) (Function.update s.ph w (SinkPhase.locked r))
        rw [partialEvsAux_some, Function.update_same]
        rw [hevs, hpe]
        rfl
      · show s.lines = cs.map (fun c => renderRec c.1 c.2) ++
          partialLinesAux (some w) (Function.update s.ph w (SinkPhase.locked r))
        rw [partialLinesAux_some, Function.update_same]
        rw [hlines, hpl]
        rfl
  | writeCon w r ho hp =>
      have hpe : partialEvs s = [] := by
        unfold partialEvs
        rw [ho, partialEvsAux_some, hp]
        rfl
      have hpl : partialLines s = [] := by
        unfold partialLines
        rw [ho, partialLinesAux_some, hp]
        rfl
      refine ⟨?_, cs, ?_, ?_⟩
      · intro w' hw'
        simp only [] at hw'
        by_cases hww : w' = w
        · subst hww
          exact absurd ho hw'
        · show Function.update s.ph w (SinkPhase.wroteCon r) w' = SinkPhase.outside
          rw [Function.update_noteq hww]
          exact hmx w' hw'
      · show s.evs ++ [SinkEv.con w r] = blocksJoin cs ++
          partialEvsAux s.owner (Function.update s.ph w (SinkPhase.wroteCon r))
        rw [ho, partialEvsAux_some, Function.update_same]
        rw [hevs, hpe]
        simp [phasePartial]
      · show s.lines = cs.map (fun c => renderRec c.1 c.2) ++
          partialLinesAux s.owner (Function.update s.ph w (SinkPhase.wroteCon r))
        rw [ho, partialLinesAux_some, Function.update_same]
        rw [hlines, hpl]
        rfl
  | writeLog w r ho hp =>
      have hpe : partialEvs s = [SinkEv.con w r] := by
        unfold partialEvs
        rw [ho, partialEvsAux_some, hp]
        rfl
      have hpl : partialLines s = [] := by
        unfold partialLines
        rw [ho, partialLinesAux_some, hp]
        rfl
      refine ⟨?_, cs, ?_, ?_⟩
      · intro w' hw'
        simp only [] at hw'
        by_cases hww : w' = w
        · subst hww
          exact absurd ho hw'
        · show Function.update s.ph w (SinkPhase.wroteLog r) w' = SinkPhase.outside
          rw [Function.update_noteq hww]
          exact hmx w' hw'
      · show s.evs ++ [SinkEv.logw w r] = blocksJoin cs ++
          partialEvsAux s.owner (Function.update s.ph w (SinkPhase.wroteLog r))
        rw [ho, partialEvsAux_some, Function.update_same]
        rw [hevs, hpe]
        simp [phasePartial]
      · show s.lines ++ [renderRec w r] = cs.map (fun c => renderRec c.1 c.2) ++
          partialLinesAux s.owner (Function.update s.ph w (SinkPhase.wroteLog r))
        rw [ho, partialLinesAux_some, Function.update_same]
        rw [hlines, hpl]
        simp [phaseLines]
  | doFlush w r ho hp =>
      have hpe : partialEvs s = [SinkEv.con w r, SinkEv.logw w r] := by
        unfold partialEvs
        rw [ho, partialEvsAux_some, hp]
        rfl
      have hpl : partialLines s = [renderRec w r] := by
        unfold partialLines
        rw [ho, partialLinesAux_some, hp]
        rfl
      refine ⟨?_, cs, ?_, ?_⟩
      · intro w' hw'
        simp only [] at hw'
        by_cases hww : w' = w
        · subst hww
          exact absurd ho hw'
        · show Function.update s.ph w (SinkPhase.flushed r) w' = SinkPhase.outside
          rw [Function.update_noteq hww]
          exact hmx w' hw'
      · show s.evs ++ [SinkEv.flush w] = blocksJoin cs ++
          partialEvsAux s.owner (Function.update s.ph w (SinkPhase.flushed r))
        rw [ho, partialEvsAux_some, Function.update_same]
        rw [hevs, hpe]
        simp [phasePartial, blockOf]
      · show s.lines = cs.map (fun c => renderRec c.1 c.2) ++
          partialLinesAux s.owner (Function.update s.ph w (SinkPhase.flushed r))
        rw [ho, partialLinesAux_some, Function.update_same]
        rw [hlines, hpl]
        rfl
  | release w r ho hp =>
      have hpe : partialEvs s = blockOf w r := by
        unfold partialEvs
        rw [ho, partialEvsAux_some, hp]
        rfl
      have hpl : partialLines s = [renderRec w r] := by
        unfold partialLines
        rw [ho, partialLinesAux_some, hp]
        rfl
      refine ⟨?_, cs ++ [(w, r)], ?_, ?_⟩
      · intro w' _
        by_cases hww : w' = w
        · subst hww
          show Function.update s.ph w' SinkPhase.outside w' = SinkPhase.outside
          rw [Function.update_same]
        · show Function.update s.ph w SinkPhase.outside w' = SinkPhase.outside
          rw [Function.update_noteq hww]
          refine hmx w' ?_
          rw [ho]
          intro hc
          exact hww (Option.some.inj hc).symm
      · show s.evs = blocksJoin (cs ++ [(w, r)]) ++
          partialEvsAux none (Function.update s.ph w SinkPhase.outside)
        rw [partialEvsAux_none, blocksJoin_append]
        rw [hevs, hpe]
        simp [blocksJoin]
      · show s.lines = (cs ++ [(w, r)]).map (fun c => renderRec c.1 c.2) ++
          partialLinesAux none (Function.update s.ph w SinkPhase.outside)
        rw [partialLinesAux_none, List.map_append]
        rw [hlines, hpl]
        simp

theorem sinkInv_reach (t : SinkState) (hr : SinkReach initSink t) : SinkInv t := by
  induction hr with
  | refl =>
      refine ⟨fun w _ => rfl, [], rfl, rfl⟩
  | tail t u hprev hstep ih => exact sinkInv_step t u hstep ih

theorem fuse_open_banner (x : String) :
    (" OPEN" : String) ++ (" - banner: " ++ x) = " OPEN - banner: " ++ x := by
  rw [← String.append_assoc]
  rfl

theorem fuse_open_paren (x : String) :
    (" OPEN" : String) ++ (" (" ++ x) = " OPEN (" ++ x := by
  rw [← String.append_assoc]
  rfl

theorem fuse_open_nl : ((" OPEN" : String) ++ "\n") = " OPEN\n" := rfl

theorem fuse_paren_nl_end : ((")" : String) ++ "\n") = ")\n" := rfl

/-- The four source branches of the log line coincide with the compositional
head / optional-banner / optional-service / newline form. -/
theorem logLine_eq_mkLine (tid : Nat) (port : Int) (o : Outcome) (svc : String) :
    logLine tid port o svc = mkLine tid port (bannerOf o) svc := by
  cases o with
  | OpenWithBanner bs =>
      by_cases h : svc = ""
      · subst h
        simp only [logLine, mkLine, bannerOf, ne_eq, not_true_eq_false, if_false,
          String.append_assoc, String.append_empty, reduceIte]
        rw [fuse_open_banner]
      · simp only [logLine, mkLine, bannerOf, ne_eq, h, not_false_eq_true, if_true, if_neg h,
          String.append_assoc, reduceIte]
        rw [fuse_open_banner, fuse_paren_nl_end]
  | OpenNoData =>
      by_cases h : svc = ""
      · subst h
        simp only [logLine, mkLine, bannerOf, ne_eq, not_true_eq_false, if_false,
          String.append_assoc, String.append_empty, String.empty_append, reduceIte]
        rw [fuse_open_nl]
      · simp only [logLine, mkLine, bannerOf, ne_eq, h, not_false_eq_true, if_true, if_neg h,
          String.append_assoc, String.empty_append, reduceIte]
        rw [fuse_open_paren, fuse_paren_nl_end]
  | Closed =>
      by_cases h : svc = ""
      · subst h
        simp only [logLine, mkLine, bannerOf, ne_eq, not_true_eq_false, if_false,
          String.append_assoc, String.append_empty, String.empty_append, reduceIte]
        rw [fuse_open_nl]
      · simp only [logLine, mkLine, bannerOf, ne_eq, h, not_false_eq_true, if_true, if_neg h,
          String.append_assoc, String.empty_append, reduceIte]
        rw [fuse_open_paren, fuse_paren_nl_end]

/-- C1: for every port range [start, end] with start ≤ end, the freshly
constructed Work Queue dispenses, over its serialized lifetime of
`get_next_port` calls, exactly the ports start, start+1, ..., end in
ascending order — the k-th successful call returns start+k, no two distinct
successful calls return the same port, every port of the range is returned
by some call — and every call after the size-th reports exhaustion (-1). -/
theorem C1_queue_dispenses_range_exactly_once (s e : Int) (h : s ≤ e) :
    ((List.range (initQueue s e).size).map (callResult (initQueue s e)) =
      (List.range (initQueue s e).size).map (fun k : Nat => s + (k : Int))) ∧
    (∀ i j : Nat, i < (initQueue s e).size → j < (initQueue s e).size → i ≠ j →
      callResult (initQueue s e) i ≠ callResult (initQueue s e) j) ∧
    (∀ p : Int, s ≤ p → p ≤ e →
      ∃ k : Nat, k < (initQueue s e).size ∧ callResult (initQueue s e) k = p) ∧
    (∀ k : Nat, (initQueue s e).size ≤ k → callResult (initQueue s e) k = -1) := by
  refine ⟨?_, ?_, ?_, ?_⟩
  · apply List.map_congr_left
    intro k hk
    exact callResult_lt s e k (List.mem_range.mp hk)
  · intro i j hi hj hij
    rw [callResult_lt s e i hi, callResult_lt s e j hj]
    intro hc
    omega
  · intro p hp1 hp2
    have hsz : (initQueue s e).size = (e - s + 1).toNat := rfl
    refine ⟨(p - s).toNat, by omega, ?_⟩
    rw [callResult_lt s e (p - s).toNat (by omega)]
    omega
  · exact callResult_ge s e

/-- Witness for C1 at the concrete range [1, 3]: the fourth call (index 5 ≥
size 3) reports exhaustion. -/
theorem C1_witness : callResult (initQueue 1 3) 5 = -1 :=
  (C1_queue_dispenses_range_exactly_once 1 3 (by decide)).2.2.2 5 (by decide)

/-- C10: once the Work Queue is exhausted (`index ≥ size`), every
`get_next_port` call returns -1 and leaves the queue completely unchanged;
the cursor never exceeds `size`; and the port array is only ever read at an
in-bounds position on a well-formed queue. -/
theorem C10_exhausted_queue_stable (q : JobQueue) :
    (q.size ≤ q.index → get_next_port q = (-1, q)) ∧
    (q.index ≤ q.size → (get_next_port q).2.index ≤ q.size) ∧
    (q.wf → ¬ q.size ≤ q.index → q.index < q.ports.length) := by
  refine ⟨?_, ?_, ?_⟩
  · intro h
    simp [get_next_port, h]
  · intro h
    by_cases hh : q.size ≤ q.index
    · simp only [get_next_port, if_pos hh]
      exact h
    · simp only [get_next_port, if_neg hh]
      omega
  · intro hwf hlt
    rw [JobQueue.wf] at hwf
    omega

/-- Witness for C10 on the concrete exhausted queue ⟨[5], 1, 1⟩. -/
theorem C10_witness :
    get_next_port (JobQueue.mk [(5 : Int)] 1 1) = (-1, JobQueue.mk [(5 : Int)] 1 1) :=
  (C10_exhausted_queue_stable (JobQueue.mk [(5 : Int)] 1 1)).1 (by decide)

/-- C5 counterexample: the durable-log line the code writes for thread 0,
open port 22, no banner, begins "[Thread 0]", not "[Worker 0]" as the claim's
exact textual form requires; the rendered line differs from the spec's form
at this concrete input. -/
theorem C5_counterexample :
    logLine 0 22 Outcome.OpenNoData (service_name 22) = "[Thread 0] Port 22 OPEN (SSH)\n" ∧
    logLine 0 22 Outcome.OpenNoData (service_name 22) ≠
      specWorkerLine 0 22 (bannerOf Outcome.OpenNoData) (service_name 22) := by
  constructor
  · decide
  · decide

/-- C5 (amended): every durable-log line for an open port has the exact
textual form "[Thread <id>] Port <port> OPEN [- banner: <bytes>]
[(<service-name>)]" — with "Thread", not "Worker", and the banner bytes
printed raw (up to the first NUL), not escaped — where the banner segment
appears exactly when a banner was captured (`OpenWithBanner`) and the
parenthesised service suffix appears exactly when `service_name` returns a
non-empty label, never as a placeholder. -/
theorem C5_amended_log_line_format (tid : Nat) (port : Int) (o : Outcome) (svc : String) :
    logLine tid port o svc = mkLine tid port (bannerOf o) svc ∧
    (∀ bs, bannerOf o = some bs ↔ o = Outcome.OpenWithBanner bs) := by
  refine ⟨logLine_eq_mkLine tid port o svc, ?_⟩
  intro bs
  cases o <;> simp [bannerOf]

theorem workerIter_sockFail (net : NetBehavior) (full : Bool) (tid : Nat) (p : Int)
    (hs : net.sockOk p = false) :
    workerIter net full tid p = IterResult.mk none [] [] [] := by
  simp [workerIter, hs]

theorem workerIter_connectFail (net : NetBehavior) (full : Bool) (tid : Nat) (p : Int)
    (hs : net.sockOk p = true) (hc : net.connectOk p = false) :
    workerIter net full tid p = IterResult.mk (some Outcome.Closed) [] []
      [SockEvent.sockCreate, SockEvent.sockClose] := by
  simp [workerIter, hs, hc]

theorem workerIter_open (net : NetBehavior) (full : Bool) (tid : Nat) (p : Int)
    (hs : net.sockOk p = true) (hc : net.connectOk p = true) :
    workerIter net full tid p = IterResult.mk (some (probeOutcome net full p))
      [conLine tid p (probeOutcome net full p) (service_name p)]
      [logLine tid p (probeOutcome net full p) (service_name p)]
      ([SockEvent.sockCreate] ++ (if full then [SockEvent.recvCall] else [])
        ++ [SockEvent.sockClose]) := by
  simp [workerIter, hs, hc]

theorem connectOk_false_of_not_true (net : NetBehavior) (p : Int)
    (hc : ¬ net.connectOk p = true) : net.connectOk p = false := by
  cases hcc : net.connectOk p
  · rfl
  · exact absurd hcc hc

theorem probeOutcome_closed (net : NetBehavior) (full : Bool) (p : Int)
    (hc : net.connectOk p = false) : probeOutcome net full p = Outcome.Closed := by
  simp [probeOutcome, hc]

theorem probeOutcome_isOpen (net : NetBehavior) (full : Bool) (p : Int) :
    (probeOutcome net full p).isOpen = net.connectOk p := by
  cases hc : net.connectOk p
  · simp [probeOutcome, hc, Outcome.isOpen]
  · simp only [probeOutcome, hc]
    rw [if_neg (by simp)]
    cases full
    · simp [Outcome.isOpen]
    · simp only [if_pos rfl]
      cases hr : net.recvData p with
      | none => simp [Outcome.isOpen]
      | some bs =>
          by_cases hb : bs.isEmpty = true
          · simp [hb, Outcome.isOpen]
          · simp [hb, Outcome.isOpen]

theorem workerIter_outcome_some (net : NetBehavior) (full : Bool) (tid : Nat) (p : Int)
    (hs : net.sockOk p = true) :
    (workerIter net full tid p).outcome = some (probeOutcome net full p) := by
  by_cases hc : net.connectOk p = true
  · rw [workerIter_open net full tid p hs hc]
  · have hc' := connectOk_false_of_not_true net p hc
    rw [workerIter_connectFail net full tid p hs hc', probeOutcome_closed net full p hc']

theorem workerIter_logl_length (net : NetBehavior) (full : Bool) (tid : Nat) (p : Int)
    (hs : net.sockOk p = true) :
    (workerIter net full tid p).logl.length =
      if (probeOutcome net full p).isOpen then 1 else 0 := by
  by_cases hc : net.connectOk p = true
  · rw [workerIter_open net full tid p hs hc]
    have ho : (probeOutcome net full p).isOpen = true := by
      rw [probeOutcome_isOpen]; exact hc
    simp [ho]
  · have hc' := connectOk_false_of_not_true net p hc
    rw [workerIter_connectFail net full tid p hs hc']
    have ho : (probeOutcome net full p).isOpen = false := by
      rw [probeOutcome_isOpen]; exact hc'
    simp [ho]

theorem workerIter_evs_balance (net : NetBehavior) (full : Bool) (tid : Nat) (p : Int) :
    (workerIter net full tid p).evs.count SockEvent.sockCreate =
      (workerIter net full tid p).evs.count SockEvent.sockClose := by
  by_cases hs : net.sockOk p = true
  · by_cases hc : net.connectOk p = true
    · rw [workerIter_open net full tid p hs hc]
      cases full <;> rfl
    · rw [workerIter_connectFail net full tid p hs (connectOk_false_of_not_true net p hc)]
      rfl
  · have hs' : net.sockOk p = false := by
      cases hss : net.sockOk p
      · rfl
      · exact absurd hss hs
    rw [workerIter_sockFail net full tid p hs']
    rfl

theorem openFilter_cons (net : NetBehavior) (full : Bool) (p : Int) (ps : List Int) :
    openFilter net full (p :: ps) =
      (if (probeOutcome net full p).isOpen then [p] else []) ++ openFilter net full ps := by
  simp only [openFilter, List.filter_cons]
  by_cases hf : (probeOutcome net full p).isOpen <;> simp [hf]

/-- Over a whole single-worker run, the number of durable-log lines equals
the number of open ports among the ports the worker probed. -/
theorem workerRun_logl_length (net : NetBehavior) (full : Bool) (tid : Nat)
    (hsock : ∀ x, net.sockOk x = true) :
    ∀ (fuel : Nat) (q : JobQueue),
      (workerRun net full tid fuel q).logl.length =
        (openFilter net full (workerRun net full tid fuel q).probed).length := by
  intro fuel
  induction fuel with
  | zero =>
      intro q
      simp [workerRun, openFilter]
  | succ fuel ih =>
      intro q
      by_cases hneg : (get_next_port q).1 = -1
      · simp [workerRun, hneg, openFilter]
      · have hout := workerIter_outcome_some net full tid (get_next_port q).1 (hsock _)
        simp only [workerRun, hneg, if_false, hout, Bool.false_eq_true]
        simp only [List.length_append, openFilter_cons, workerIter_logl_length net full tid _ (hsock _)]
        rw [ih]
        by_cases hf : (probeOutcome net full (get_next_port q).1).isOpen <;> simp [hf]

/-- Over a whole single-worker run, sockets created and sockets closed
balance exactly: none is leaked across iterations and none closed twice. -/
theorem workerRun_evs_balance (net : NetBehavior) (full : Bool) (tid : Nat) :
    ∀ (fuel : Nat) (q : JobQueue),
      (workerRun net full tid fuel q).evs.count SockEvent.sockCreate =
        (workerRun net full tid fuel q).evs.count SockEvent.sockClose := by
  intro fuel
  induction fuel with
  | zero =>
      intro q
      simp [workerRun]
  | succ fuel ih =>
      intro q
      by_cases hneg : (get_next_port q).1 = -1
      · simp [workerRun, hneg]
      · cases hout : (workerIter net full tid (get_next_port q).1).outcome with
        | none =>
            simp only [workerRun, hneg, if_false, hout, Bool.false_eq_true]
            exact workerIter_evs_balance net full tid _
        | some o =>
            simp only [workerRun, hneg, if_false, hout, Bool.false_eq_true,
              List.count_append]
            rw [ih, workerIter_evs_balance net full tid _]

/-- Fixed environments used to instantiate hypotheses at concrete inputs. -/
def netAllSockFail : NetBehavior :=
  NetBehavior.mk (fun _ => false) (fun _ => true) (fun _ => none)

def netClosed : NetBehavior :=
  NetBehavior.mk (fun _ => true) (fun _ => false) (fun _ => none)

def netHi : NetBehavior :=
  NetBehavior.mk (fun _ => true) (fun _ => true) (fun _ => some [72, 105])

def net512 : NetBehavior :=
  NetBehavior.mk (fun _ => true) (fun _ => true) (fun _ => some (List.replicate 512 65))

def netSock1Fails : NetBehavior :=
  NetBehavior.mk (fun p => p != 1) (fun _ => true) (fun _ => none)

/-- C6 counterexample: with 512 bytes available, the single bounded read
captures only 511 of them (`recv` is called with `sizeof(banner) - 1`), so
the captured banner is not the available bytes truncated to the claimed
buffer size of 512. -/
theorem C6_counterexample :
    probeOutcome net512 true 80 = Outcome.OpenWithBanner (List.replicate 511 65) ∧
    Outcome.OpenWithBanner (List.replicate 511 65) ≠
      Outcome.OpenWithBanner ((List.replicate 512 65).take bufSize) := by
  constructor
  · simp only [probeOutcome, net512, bufSize]
    rw [if_neg (by simp)]
    simp only [if_true]
    rw [if_neg (by simp [List.isEmpty_iff])]
    rw [List.take_replicate]
    norm_num
  · intro h
    have h2 : (List.replicate 511 65 : List Nat) = (List.replicate 512 65).take bufSize := by
      injection h
    have h3 := congrArg List.length h2
    simp only [List.length_replicate, List.length_take, bufSize] at h3
    omega

/-- C6 (amended): in full mode, for every successful connection the probe
attempts exactly one bounded read; the read is bounded by 511 bytes — the
512-byte buffer minus the byte reserved for the NUL terminator — a zero or
negative read yields OpenNoData, and a positive read of n bytes yields
OpenWithBanner whose captured bytes are the available bytes truncated to
511. -/
theorem C6_amended_bounded_read (net : NetBehavior) (tid : Nat) (p : Int)
    (hs : net.sockOk p = true) (hc : net.connectOk p = true) :
    (workerIter net true tid p).evs.count SockEvent.recvCall = 1 ∧
    (net.recvData p = none → probeOutcome net true p = Outcome.OpenNoData) ∧
    (∀ bs, net.recvData p = some bs → bs = [] →
      probeOutcome net true p = Outcome.OpenNoData) ∧
    (∀ bs, net.recvData p = some bs → bs ≠ [] →
      probeOutcome net true p = Outcome.OpenWithBanner (bs.take (bufSize - 1)) ∧
      (bs.take (bufSize - 1)).length ≤ bufSize - 1) := by
  refine ⟨?_, ?_, ?_, ?_⟩
  · rw [workerIter_open net true tid p hs hc]
    rfl
  · intro hr
    simp [probeOutcome, hc, hr]
  · intro bs hr hbs
    subst hbs
    simp [probeOutcome, hc, hr]
  · intro bs hr hbs
    constructor
    · simp only [probeOutcome, hc, hr]
      rw [if_neg (by simp)]
      simp only [if_true]
      rw [if_neg (by simp [List.isEmpty_iff, hbs])]
    · simp [List.length_take]

/-- Witness for C6 at a service offering the two bytes "Hi". -/
theorem C6_witness :
    probeOutcome netHi true 80 = Outcome.OpenWithBanner ([72, 105].take (bufSize - 1)) ∧
    (([72, 105] : List Nat).take (bufSize - 1)).length ≤ bufSize - 1 :=
  (C6_amended_bounded_read netHi 0 80 rfl rfl).2.2.2 [72, 105] rfl (by decide)

/-- C7: in fast mode, for every port whose connection attempt succeeds, the
probe performs no read at all (no recv event in the iteration) and the
outcome is always OpenNoData, so the recorded durable-log line for that port
carries no banner segment. -/
theorem C7_fast_mode_no_read_no_banner (net : NetBehavior) (tid : Nat) (p : Int)
    (hc : net.connectOk p = true) :
    probeOutcome net false p = Outcome.OpenNoData ∧
    (workerIter net false tid p).evs.count SockEvent.recvCall = 0 ∧
    logLine tid p (probeOutcome net false p) (service_name p) =
      mkLine tid p none (service_name p) := by
  have h1 : probeOutcome net false p = Outcome.OpenNoData := by
    simp [probeOutcome, hc]
  refine ⟨h1, ?_, ?_⟩
  · by_cases hs : net.sockOk p = true
    · rw [workerIter_open net false tid p hs hc]
      rfl
    · have hs' : net.sockOk p = false := by
        cases hss : net.sockOk p
        · rfl
        · exact absurd hss hs
      rw [workerIter_sockFail net false tid p hs']
      rfl
  · rw [h1, logLine_eq_mkLine]
    rfl

/-- Witness for C7 against a service that would offer banner bytes: fast
mode still reports OpenNoData. -/
theorem C7_witness : probeOutcome netHi false 80 = Outcome.OpenNoData :=
  (C7_fast_mode_no_read_no_banner netHi 0 80 rfl).1

/-- C8: for every port whose connection attempt returns a non-zero result,
the outcome is Closed and no line is written to either the interactive
channel or the durable log; over a whole run the number of durable-log
lines equals the number of open ports probed, so output is proportional to
findings, not to scan size. -/
theorem C8_closed_ports_silent (net : NetBehavior) (full : Bool) (tid : Nat) (p : Int)
    (hc : net.connectOk p = false) :
    probeOutcome net full p = Outcome.Closed ∧
    (workerIter net full tid p).conl = [] ∧
    (workerIter net full tid p).logl = [] ∧
    ((∀ x, net.sockOk x = true) → ∀ (fuel : Nat) (q : JobQueue),
      (workerRun net full tid fuel q).logl.length =
        (openFilter net full (workerRun net full tid fuel q).probed).length) := by
  refine ⟨probeOutcome_closed net full p hc, ?_, ?_, ?_⟩
  · by_cases hs : net.sockOk p = true
    · rw [workerIter_connectFail net full tid p hs hc]
    · have hs' : net.sockOk p = false := by
        cases hss : net.sockOk p
        · rfl
        · exact absurd hss hs
      rw [workerIter_sockFail net full tid p hs']
  · by_cases hs : net.sockOk p = true
    · rw [workerIter_connectFail net full tid p hs hc]
    · have hs' : net.sockOk p = false := by
        cases hss : net.sockOk p
        · rfl
        · exact absurd hss hs
      rw [workerIter_sockFail net full tid p hs']
  · intro hsock
    exact workerRun_logl_length net full tid hsock

/-- Witness for C8 against the all-closed environment. -/
theorem C8_witness :
    probeOutcome netClosed true 80 = Outcome.Closed ∧
    (workerIter netClosed true 0 80).conl = [] ∧
    (workerIter netClosed true 0 80).logl = [] :=
  ⟨(C8_closed_ports_silent netClosed true 0 80 rfl).1,
   (C8_closed_ports_silent netClosed true 0 80 rfl).2.1,
   (C8_closed_ports_silent netClosed true 0 80 rfl).2.2.1⟩

/-- C9: whenever a socket is successfully created for a probe, the
iteration's event trace contains exactly one create and exactly one close —
the socket is released exactly once on every exit path (connect failure,
open without banner, open with banner) — and over a whole worker run the
create and close counts balance, so no socket is leaked across loop
iterations or closed twice. -/
theorem C9_socket_released_exactly_once (net : NetBehavior) (full : Bool) (tid : Nat)
    (p : Int) (hs : net.sockOk p = true) :
    (workerIter net full tid p).evs.count SockEvent.sockCreate = 1 ∧
    (workerIter net full tid p).evs.count SockEvent.sockClose = 1 ∧
    (∀ (fuel : Nat) (q : JobQueue),
      (workerRun net full tid fuel q).evs.count SockEvent.sockCreate =
        (workerRun net full tid fuel q).evs.count SockEvent.sockClose) := by
  refine ⟨?_, ?_, workerRun_evs_balance net full tid⟩
  · by_cases hc : net.connectOk p = true
    · rw [workerIter_open net full tid p hs hc]
      cases full <;> rfl
    · rw [workerIter_connectFail net full tid p hs (connectOk_false_of_not_true net p hc)]
      rfl
  · by_cases hc : net.connectOk p = true
    · rw [workerIter_open net full tid p hs hc]
      cases full <;> rfl
    · rw [workerIter_connectFail net full tid p hs (connectOk_false_of_not_true net p hc)]
      rfl

/-- Witness for C9 on a closed port in the all-closed environment. -/
theorem C9_witness :
    (workerIter netClosed true 0 80).evs.count SockEvent.sockCreate = 1 ∧
    (workerIter netClosed true 0 80).evs.count SockEvent.sockClose = 1 :=
  ⟨(C9_socket_released_exactly_once netClosed true 0 80 rfl).1,
   (C9_socket_released_exactly_once netClosed true 0 80 rfl).2.1⟩

/-- C2 counterexample: in the environment where every `socket()` call fails,
a single worker over the freshly built queue for [1, 2] claims port 1, hits
the socket failure, and executes `return NULL` (line 248): it stops with the
queue cursor at 1 of 2 — it does not continue pulling further ports until
exhaustion, contradicting the claim. -/
theorem C2_counterexample :
    (workerRun netAllSockFail true 0 2 (initQueue 1 2)).queue.index = 1 ∧
    (initQueue 1 2).size = 2 ∧
    ¬ (initQueue 1 2).size ≤ (workerRun netAllSockFail true 0 2 (initQueue 1 2)).queue.index ∧
    (workerRun netAllSockFail true 0 2 (initQueue 1 2)).probed = [] := by
  decide

/-- C2 (amended): when socket creation fails for a port a worker has
claimed, the worker thread terminates immediately (`return NULL`),
abandoning that one port and producing no further output or events; the
failure is fatal to that worker but not to the pool — the probeFail step
changes only the failing worker's status to done, leaving the queue, the
record and every other worker untouched, so the remaining ports stay
available to the other workers. -/
theorem C2_amended_sockfail_fatal_to_worker_only (net : NetBehavior) (full : Bool)
    (tid : Nat) (p : Int) (q q' : JobQueue) (fuel : Nat)
    (hp : get_next_port q = (p, q')) (hne : p ≠ -1) (hs : net.sockOk p = false) :
    workerRun net full tid (fuel + 1) q = RunResult.mk [] [] [] q' ∧
    (∀ (ps : PoolState) (i : Nat), ps.workers[i]? = some (WStatus.hasPort p) →
      PoolStep net full ps
        (PoolState.mk ps.queue (ps.workers.set i WStatus.done) ps.recorded) ∧
      ∀ j : Nat, j ≠ i → (ps.workers.set i WStatus.done)[j]? = ps.workers[j]?) := by
  constructor
  · simp [workerRun, hp, hne, workerIter_sockFail net full tid p hs]
  · intro ps i hi
    refine ⟨PoolStep.probeFail ps i p hi hs, ?_⟩
    intro j hj
    exact List.getElem?_set_ne (fun hc => hj hc.symm)

/-- Witness for C2 (amended) at the concrete queue for [1, 2]. -/
theorem C2_witness :
    workerRun netAllSockFail true 0 1 (initQueue 1 2) =
      RunResult.mk [] [] [] (JobQueue.mk (initQueue 1 2).ports (initQueue 1 2).size 1) :=
  (C2_amended_sockfail_fatal_to_worker_only netAllSockFail true 0 1 (initQueue 1 2)
    (JobQueue.mk (initQueue 1 2).ports (initQueue 1 2).size 1) 0
    (by decide) (by decide) (by decide)).1

/-- Intermediate and final states of two concrete pool runs over [1, 2] in
the environment where `socket()` fails exactly for port 1. -/
def cexq1 : JobQueue := JobQueue.mk (initQueue 1 2).ports (initQueue 1 2).size 1

def cexq2 : JobQueue := JobQueue.mk (initQueue 1 2).ports (initQueue 1 2).size 2

def cex3a1 : PoolState := PoolState.mk cexq1 [WStatus.hasPort 1] []

def cex3t1 : PoolState := PoolState.mk cexq1 [WStatus.done] []

def cex3b1 : PoolState := PoolState.mk cexq1 [WStatus.hasPort 1, WStatus.idle] []

def cex3b2 : PoolState := PoolState.mk cexq1 [WStatus.done, WStatus.idle] []

def cex3b3 : PoolState := PoolState.mk cexq2 [WStatus.done, WStatus.hasPort 2] []

def cex3b4 : PoolState := PoolState.mk cexq2 [WStatus.done, WStatus.idle] [2]

def cex3t2 : PoolState := PoolState.mk cexq2 [WStatus.done, WStatus.done] [2]

/-- C3 counterexample: fix the environment where `socket()` fails exactly on
port 1 and every connection succeeds, and scan [1, 2] in full mode.  A
complete 1-worker run records no open port (the only worker dies on port 1),
while a complete 2-worker run records port 2: the set of ports reported open
depends on the worker count, contradicting the claim for this fixed
environment. -/
theorem C3_counterexample :
    PoolReach netSock1Fails true (initPool 1 2 1) cex3t1 ∧ Terminal cex3t1 ∧
    PoolReach netSock1Fails true (initPool 1 2 2) cex3t2 ∧ Terminal cex3t2 ∧
    cex3t1.recorded = [] ∧ cex3t2.recorded = [(2 : Int)] ∧
    cex3t1.recorded ≠ cex3t2.recorded := by
  refine ⟨?_, by unfold Terminal; decide, ?_, by unfold Terminal; decide, rfl, rfl, by decide⟩
  · exact PoolReach.tail cex3a1 cex3t1
      (PoolReach.tail (initPool 1 2 1) cex3a1 PoolReach.refl
        (PoolStep.claimPort (initPool 1 2 1) 0 1 cexq1 (by decide) (by decide) (by decide)))
      (PoolStep.probeFail cex3a1 0 1 (by decide) (by decide))
  · exact PoolReach.tail cex3b4 cex3t2
      (PoolReach.tail cex3b3 cex3b4
        (PoolReach.tail cex3b2 cex3b3
          (PoolReach.tail cex3b1 cex3b2
            (PoolReach.tail (initPool 1 2 2) cex3b1 PoolReach.refl
              (PoolStep.claimPort (initPool 1 2 2) 0 1 cexq1
                (by decide) (by decide) (by decide)))
            (PoolStep.probeFail cex3b1 0 1 (by decide) (by decide)))
          (PoolStep.claimPort cex3b2 1 2 cexq2 (by decide) (by decide) (by decide)))
        (PoolStep.probeDone cex3b3 1 2 (by decide) (by decide)))
      (PoolStep.claimDone cex3b4 1 cexq2 (by decide) (by decide))

/-- C3 (amended): provided socket creation never fails, a complete scan with
any worker count n ≥ 1 records, up to permutation, exactly the open ports of
the range, so an n-worker run and a 1-worker run over the same range and
mode report exactly the same open-port multiset; without that proviso a
socket-creation failure kills the affected worker and the discovered set can
depend on n. -/
theorem C3_amended_worker_count_irrelevant (net : NetBehavior) (full : Bool)
    (s e : Int) (n : Nat) (hs : 1 ≤ s) (hsock : ∀ p, net.sockOk p = true) (hn : 1 ≤ n)
    (t1 t2 : PoolState)
    (h1 : PoolReach net full (initPool s e n) t1) (ht1 : Terminal t1)
    (h2 : PoolReach net full (initPool s e 1) t2) (ht2 : Terminal t2) :
    t1.recorded.Perm (openFilter net full (initQueue s e).ports) ∧
    t1.recorded.Perm t2.recorded := by
  have c1 := pool_complete_run net full s e n hs hsock hn t1 h1 ht1
  have c2 := pool_complete_run net full s e 1 hs hsock (le_refl 1) t2 h2 ht2
  constructor
  · exact List.perm_iff_count.mpr c1
  · refine List.perm_iff_count.mpr ?_
    intro x
    rw [c1 x, c2 x]

def witq1 : JobQueue := JobQueue.mk (initQueue 1 1).ports (initQueue 1 1).size 1

def wit3a : PoolState := PoolState.mk witq1 [WStatus.hasPort 1] []

def wit3b : PoolState := PoolState.mk witq1 [WStatus.idle] []

def wit3t : PoolState := PoolState.mk witq1 [WStatus.done] []

/-- A complete 1-worker run over [1, 1] against the all-closed environment. -/
theorem wit3Reach : PoolReach netClosed true (initPool 1 1 1) wit3t :=
  PoolReach.tail wit3b wit3t
    (PoolReach.tail wit3a wit3b
      (PoolReach.tail (initPool 1 1 1) wit3a PoolReach.refl
        (PoolStep.claimPort (initPool 1 1 1) 0 1 witq1 (by decide) (by decide) (by decide)))
      (PoolStep.probeDone wit3a 0 1 (by decide) (by decide)))
    (PoolStep.claimDone wit3b 0 witq1 (by decide) (by decide))

/-- Witness for C3 (amended) on a concrete complete run. -/
theorem C3_witness :
    wit3t.recorded.Perm (openFilter netClosed true (initQueue 1 1).ports) ∧
    wit3t.recorded.Perm wit3t.recorded :=
  C3_amended_worker_count_irrelevant netClosed true 1 1 1 (by decide)
    (fun _ => rfl) (by decide) wit3t wit3t wit3Reach (by unfold Terminal; decide)
    wit3Reach (by unfold Terminal; decide)

/-- The event trace is a concatenation of complete three-event blocks, each
belonging to a single record call. -/
inductive IsBlocks : List SinkEv → Prop
  | nil : IsBlocks []
  | cons (w : Nat) (r : OutRec) (t : List SinkEv) :
      IsBlocks t → IsBlocks (SinkEv.con w r :: SinkEv.logw w r :: SinkEv.flush w :: t)

/-- The durable-log lines determined by the trace: one fully formed line per
log-write event, in trace order. -/
def linesOf : List SinkEv → List String
  | [] => []
  | SinkEv.logw w r :: es => renderRec w r :: linesOf es
  | SinkEv.con _ _ :: es => linesOf es
  | SinkEv.flush _ :: es => linesOf es

theorem isBlocks_blocksJoin (cs : List (Nat × OutRec)) : IsBlocks (blocksJoin cs) := by
  induction cs with
  | nil => exact IsBlocks.nil
  | cons c cs ih => exact IsBlocks.cons c.1 c.2 _ ih

theorem linesOf_blocksJoin (cs : List (Nat × OutRec)) :
    linesOf (blocksJoin cs) = cs.map (fun c => renderRec c.1 c.2) := by
  induction cs with
  | nil => rfl
  | cons c cs ih =>
      show renderRec c.1 c.2 :: linesOf (blocksJoin cs) = _
      rw [ih]
      rfl

/-- C4: in any reachable quiescent state of the Result Sink, the event trace
splits into indivisible per-call blocks — for each record call, the console
write, the durable-log write and the flush happen under one lock
acquisition, with no event of any other worker in between — and the durable
log contains exactly one fully formed line per completed call, so no line
mixes fields from two different calls. -/
theorem C4_record_calls_indivisible (t : SinkState)
    (hr : SinkReach initSink t) (hq : t.owner = none) :
    IsBlocks t.evs ∧ t.lines = linesOf t.evs := by
  obtain ⟨hmx, cs, hevs, hlines⟩ := sinkInv_reach t hr
  have hpe : partialEvs t = [] := by
    unfold partialEvs
    rw [hq, partialEvsAux_none]
  have hpl : partialLines t = [] := by
    unfold partialLines
    rw [hq, partialLinesAux_none]
  rw [hevs, hlines, hpe, hpl, List.append_nil, List.append_nil]
  exact ⟨isBlocks_blocksJoin cs, (linesOf_blocksJoin cs).symm⟩

/-- A concrete record call pushed through the sink. -/
def demoRec : OutRec := OutRec.mk 22 Outcome.OpenNoData "SSH"

def dph0 : Nat → SinkPhase := fun _ => SinkPhase.outside

def dph1 : Nat → SinkPhase := Function.update dph0 0 (SinkPhase.locked demoRec)

def dph2 : Nat → SinkPhase := Function.update dph1 0 (SinkPhase.wroteCon demoRec)

def dph3 : Nat → SinkPhase := Function.update dph2 0 (SinkPhase.wroteLog demoRec)

def dph4 : Nat → SinkPhase := Function.update dph3 0 (SinkPhase.flushed demoRec)

def dph5 : Nat → SinkPhase := Function.update dph4 0 SinkPhase.outside

def ds1 : SinkState := SinkState.mk (some 0) dph1 [] []

def ds2 : SinkState := SinkState.mk (some 0) dph2 [SinkEv.con 0 demoRec] []

def ds3 : SinkState := SinkState.mk (some 0) dph3
  [SinkEv.con 0 demoRec, SinkEv.logw 0 demoRec] [renderRec 0 demoRec]

def ds4 : SinkState := SinkState.mk (some 0) dph4
  [SinkEv.con 0 demoRec, SinkEv.logw 0 demoRec, SinkEv.flush 0] [renderRec 0 demoRec]

def ds5 : SinkState := SinkState.mk none dph5
  [SinkEv.con 0 demoRec, SinkEv.logw 0 demoRec, SinkEv.flush 0] [renderRec 0 demoRec]

/-- One complete record call runs through the sink automaton. -/
theorem sinkDemoReach : SinkReach initSink ds5 :=
  SinkReach.tail ds4 ds5
    (SinkReach.tail ds3 ds4
      (SinkReach.tail ds2 ds3
        (SinkReach.tail ds1 ds2
          (SinkReach.tail initSink ds1 SinkReach.refl
            (SinkStep.acquire initSink 0 demoRec rfl rfl))
          (SinkStep.writeCon ds1 0 demoRec rfl (by simp [ds1, dph1])))
        (SinkStep.writeLog ds2 0 demoRec rfl (by simp [ds2, dph2])))
      (SinkStep.doFlush ds3 0 demoRec rfl (by simp [ds3, dph3])))
    (SinkStep.release ds4 0 demoRec rfl (by simp [ds4, dph4]))

/-- Witness for C4 on the concrete one-call run. -/
theorem C4_witness : IsBlocks ds5.evs ∧ ds5.lines = linesOf ds5.evs :=
  C4_record_calls_indivisible ds5 sinkDemoReach rfl

end PortScanner
